import Mathlib

/-!
A shallow embedding of the Lisp interpreter in `src/lisp.cpp`
(tokenizer, parser, environment model, evaluator, built-ins), with
theorems checking the natural-language specification against it.

Modelling decisions, stated once here:

* C++ `double` values are modelled as exact rationals (`Rat`).  Every
  arithmetic operation exercised by the spec's examples (sums and
  differences of small integers) is exact in IEEE double precision, so
  on those inputs the rational model and the C++ program agree.
* The C++ `tokenize` loop does not always terminate (its negative-number
  branch never consumes the leading `-`), so the lexer is embedded with
  an explicit fuel parameter; `TokOut.outOfFuel` at every fuel marks the
  diverging runs.  `tokenize` itself runs the loop with fuel
  `length + 1`, which is enough for every terminating run because every
  non-diverging iteration advances the cursor by at least one character.
* `eval` is likewise fuel-indexed, since user closures can recurse
  without bound.  A result is only ever claimed under a hypothesis (or a
  concrete computation) showing the run finishes within the given fuel.
* Environments are mutable shared frames in C++ (`shared_ptr`), so the
  embedding threads an explicit `Store` (a list of frames addressed by
  index); frame creation appends, `Environment::set` updates one frame
  in place, and results carry the final store even on error, exactly as
  a thrown C++ exception leaves the heap mutations in place.
* `std::vector::operator[]` out of bounds (reachable in
  `parseExpression` on an empty token sequence) is undefined behaviour
  in C++; the total embedding returns the error `Err.tokenOutOfBounds`
  there, as claim C10 directs.
* `std::stod` is modelled by `stodModel`: longest-valid-prefix decimal
  parsing with both of `stod`'s failure modes — `invalid_argument` when
  no prefix converts, and `out_of_range` when the converted value
  overflows the double range (the C standard mandates `ERANGE` on
  overflow, and a 300-plus-digit NUMBER token is producible by this
  lexer).  Exponent, hex, inf/nan and sign forms are omitted because
  NUMBER tokens produced by this lexer consist of digits and dots only;
  underflow of long fractional tokens is not modelled because whether
  `strtod` reports `ERANGE` on underflow is implementation-defined.
-/

/- `Rat`'s arithmetic is `@[irreducible]` by default, which blocks
`rfl`/`decide` evaluation of the interpreter on concrete programs;
restore the ordinary definitional behaviour (the kernel unfolds these
regardless, so proofs are unaffected). -/
set_option allowUnsafeReducibility true in
attribute [semireducible] Rat.add Rat.sub Rat.neg Rat.div Rat.mul Rat.inv

/- The double-overflow bound `2 ^ 1024 - 2 ^ 970` must evaluate during
elaboration of the concrete lexer/parser runs. -/
set_option exponentiation.threshold 1100
set_option maxRecDepth 8192

namespace Lisp

/-! ## Characters, mirroring the C `ctype` calls on ASCII input -/

def isSpaceC (c : Char) : Bool :=
  c = ' ' || c = '\t' || c = '\n' || c.toNat = 11 || c.toNat = 12 || c = '\r'

def isDigitC (c : Char) : Bool :=
  48 ≤ c.toNat && c.toNat ≤ 57

def isAlphaC (c : Char) : Bool :=
  (65 ≤ c.toNat && c.toNat ≤ 90) || (97 ≤ c.toNat && c.toNat ≤ 122)

def isAlnumC (c : Char) : Bool :=
  isAlphaC c || isDigitC c

/-- The operator characters the lexer's `strchr` call accepts:
`+ - * / % < > = !`. -/
def isOpC (c : Char) : Bool :=
  c = '+' || c = '-' || c = '*' || c = '/' || c = '%' ||
  c = '<' || c = '>' || c = '=' || c = '!'

/-! ## Tokens -/

inductive TokenType where
  | openP
  | closeP
  | number
  | symbol
deriving DecidableEq, Repr

structure Token where
  type : TokenType
  value : String
deriving DecidableEq, Repr

/-- Outcome of the tokenizer loop: a token list, a `LexError` on an
unexpected character, or fuel exhaustion (marking runs of the C++ loop
that never terminate). -/
inductive TokOut where
  | ok (ts : List Token)
  | err (c : Char)
  | outOfFuel
deriving DecidableEq, Repr

/-- Step-counted body of the
`while (i < code.length() && p(code[i])) i++;` scan loops.  The counter
is structural so that the kernel can evaluate it; `scanWhile` supplies
`code.length - i`, which is exactly the number of steps any such scan
can still take. -/
def scanWhileAux (p : Char → Bool) (code : List Char) : Nat → Nat → Nat
  | 0, i => i
  | steps + 1, i =>
    if i < code.length then
      if p (code.getD i '\x00') then scanWhileAux p code steps (i + 1) else i
    else i

/-- First index `j ≥ i` at which `p` fails (or the end of the input). -/
def scanWhile (p : Char → Bool) (code : List Char) (i : Nat) : Nat :=
  scanWhileAux p code (code.length - i) i

/-- `code.substr(start, j - start)`. -/
def substrOf (code : List Char) (start j : Nat) : String :=
  String.mk ((code.drop start).take (j - start))

/-- The body of `tokenize`'s `while (i < code.length())` loop, embedded
with fuel.  Out-of-range character reads (`code[i+1]` at the end of the
string) yield `'\x00'`, matching `std::string::operator[]` at index
`size()`. -/
def tokenizeAux (code : List Char) : Nat → Nat → List Token → TokOut
  | 0, _, _ => .outOfFuel
  | fuel + 1, i, acc =>
    if i < code.length then
      let c := code.getD i '\x00'
      if isSpaceC c then
        tokenizeAux code fuel (i + 1) acc
      else if c = '(' then
        tokenizeAux code fuel (i + 1) (acc ++ [⟨.openP, "("⟩])
      else if c = ')' then
        tokenizeAux code fuel (i + 1) (acc ++ [⟨.closeP, ")"⟩])
      else if isDigitC c || (c = '-' && isDigitC (code.getD (i + 1) '\x00')) then
        let j := scanWhile (fun ch => isDigitC ch || ch = '.') code i
        tokenizeAux code fuel j (acc ++ [⟨.number, substrOf code i j⟩])
      else if isAlphaC c || isOpC c then
        let j := scanWhile (fun ch => isAlnumC ch || isOpC ch) code i
        tokenizeAux code fuel j (acc ++ [⟨.symbol, substrOf code i j⟩])
      else
        .err c
    else
      .ok acc

/-- `tokenize`: every terminating run of the C++ loop advances the
cursor each iteration, so fuel `length + 1` suffices for all of them;
`outOfFuel` therefore marks exactly the diverging runs. -/
def tokenize (code : String) : TokOut :=
  tokenizeAux code.data (code.data.length + 1) 0 []

/-! ## Terms

The C++ `Expression` is a `std::variant` of number, symbol, list, and
`shared_ptr<Function>`; a `Function` is either a builtin (non-empty
`std::function`) or a user closure (params, body, captured environment).
The two `Function` cases appear here as the `natv` and `closure`
constructors; a closure's captured environment is a frame index into the
`Store` below. -/

/-- The two builtins that `addBuiltins` registers. -/
inductive NativeFn where
  | add
  | sub
deriving DecidableEq, Repr

inductive Term where
  | num (x : Rat)
  | sym (name : String)
  | list (ts : List Term)
  | natv (f : NativeFn)
  | closure (params : List String) (body : Term) (envId : Nat)

/-- `isSymbol` from the source. -/
def isSymbol : Term → Bool
  | .sym _ => true
  | _ => false

/-- `isNumber` from the source. -/
def isNumber : Term → Bool
  | .num _ => true
  | _ => false

/-- `isList` from the source. -/
def isList : Term → Bool
  | .list _ => true
  | _ => false

/-- `isFunction` from the source: holds a `shared_ptr<Function>`
alternative, i.e. a builtin or a closure. -/
def isFunction : Term → Bool
  | .natv _ => true
  | .closure _ _ _ => true
  | _ => false

/-! ## Errors

One constructor per distinct `throw std::runtime_error` site of the
interpreter core — with the `std::stod` call site contributing two
(`numberFormat` for its `invalid_argument`, `numberOutOfRange` for its
`out_of_range`) — plus the markers introduced by the total embedding
(`tokenOutOfBounds` for the undefined out-of-bounds token read, and
the two fuel markers). -/

inductive Err where
  | unexpectedChar (c : Char)
  | missingClose
  | unexpectedToken
  | numberFormat
  | numberOutOfRange
  | tokenOutOfBounds
  | lexNoTermination
  | parserOutOfFuel
  | undefinedSymbol (name : String)
  | invalidDefine
  | invalidLambda
  | lambdaParamNotSymbol
  | invalidIf
  | notAFunction
  | firstNotSymbol
  | wrongArgCount
  | plusTypeError
  | minusNeedsArg
  | minusTypeError
  | invalidExpression
deriving DecidableEq, Repr

/-! ## Numeric literal conversion (`std::stod`) -/

def digitsVal (ds : List Char) : Nat :=
  ds.foldl (fun acc c => 10 * acc + (c.toNat - 48)) 0

/-- The two exceptions `std::stod` can throw: `invalid_argument` when
no initial portion of the text converts, `out_of_range` when the
converted value falls outside the double range. -/
inductive StodErr where
  | invalidArgument
  | outOfRange
deriving DecidableEq, Repr

/-- The smallest nonnegative value that `strtod` rounds to infinity
under round-to-nearest-even: the midpoint between the largest finite
double `(2^53 - 1) * 2^971` and `2^1024`.  Conversions of values at or
above it overflow (`ERANGE`, hence `std::out_of_range` from `stod`).
It is an integer, and a nonnegative `I.F` decimal overflows exactly
when its integer part `I` reaches it (the fraction adds less than 1). -/
def stodOverflowBound : Nat := 2 ^ 1024 - 2 ^ 970

/-- `std::stod` on the texts this lexer can put in a NUMBER token
(digits and dots): longest-valid-prefix conversion.  `invalid_argument`
exactly when no initial portion converts (`""`, `"."`); `out_of_range`
when the converted prefix overflows the double range (only the integer
part can be responsible, see `stodOverflowBound`).  `"1.2.3"` converts
to `1.2`.  Underflow of long fractional tokens is not modelled
(`ERANGE` on underflow is implementation-defined). -/
def stodModel (s : String) : Except StodErr Rat :=
  let cs := s.data
  let intPart := cs.takeWhile isDigitC
  let rest := cs.drop intPart.length
  match intPart, rest with
  | [], '.' :: rest' =>
    let frac := rest'.takeWhile isDigitC
    if frac.isEmpty then .error .invalidArgument
    else .ok ((digitsVal frac : Rat) / (10 ^ frac.length : Rat))
  | [], _ => .error .invalidArgument
  | ds, rest =>
    if stodOverflowBound ≤ digitsVal ds then .error .outOfRange
    else
      let frac := match rest with
        | '.' :: r => r.takeWhile isDigitC
        | _ => []
      .ok ((digitsVal ds : Rat) + (digitsVal frac : Rat) / (10 ^ frac.length : Rat))

/-! ## Parser -/

/-- Result of `parseExpression`: a term plus the cursor position after
it, an error, or fuel exhaustion. -/
inductive PRes where
  | ok (t : Term) (next : Nat)
  | err (e : Err)
  | spin

mutual

/-- `parseExpression(tokens, pos)`.  The unchecked `tokens[pos]` read of
the C++ becomes `tokens.get? pos`, with `none` mapped to
`Err.tokenOutOfBounds` (see the header comment). -/
def parseExprAux : Nat → List Token → Nat → PRes
  | 0, _, _ => .spin
  | fuel + 1, tokens, pos =>
    match tokens.get? pos with
    | none => .err .tokenOutOfBounds
    | some tk =>
      match tk.type with
      | .number =>
        match stodModel tk.value with
        | .ok q => .ok (.num q) (pos + 1)
        | .error .invalidArgument => .err .numberFormat
        | .error .outOfRange => .err .numberOutOfRange
      | .symbol => .ok (.sym tk.value) (pos + 1)
      | .openP => parseListAux fuel tokens (pos + 1) []
      | .closeP => .err .unexpectedToken

/-- The loop of `parseList` after the opening paren is skipped:
collect expressions until a close paren; a missing close paren (token
stream exhausted) is an error. -/
def parseListAux : Nat → List Token → Nat → List Term → PRes
  | 0, _, _, _ => .spin
  | fuel + 1, tokens, pos, acc =>
    match tokens.get? pos with
    | none => .err .missingClose
    | some tk =>
      if tk.type = .closeP then .ok (.list acc) (pos + 1)
      else
        match parseExprAux fuel tokens pos with
        | .ok t pos' => parseListAux fuel tokens pos' (acc ++ [t])
        | r => r

end

/-- `parse`: tokenize, then read one expression from position 0,
discarding the final cursor (trailing tokens are ignored, as in the
source).  Fuel `2 * length + 2` covers every run of the parser, which
consumes at least one token per two recursive calls. -/
def parse (code : String) : Except Err Term :=
  match tokenize code with
  | .ok tokens =>
    match parseExprAux (2 * tokens.length + 2) tokens 0 with
    | .ok t _ => .ok t
    | .err e => .error e
    | .spin => .error .parserOutOfFuel
  | .err c => .error (.unexpectedChar c)
  | .outOfFuel => .error .lexNoTermination

/-! ## Environments

A `Frame` is one `Environment` object: a name-to-term map plus the
optional outer link; the `Store` is the heap of frames, addressed by
index.  Frames built by the interpreter always have `outer` strictly
below their own index (the global frame is index 0 with no outer), so a
lookup starting at `e` walks at most `e + 1` frames. -/

structure Frame where
  vars : List (String × Term)
  outer : Option Nat

structure Store where
  frames : List Frame

/-- Lookup in one frame's map (`vars.find(var)`). -/
def varsFind : List (String × Term) → String → Option Term
  | [], _ => none
  | (k, v) :: r, name => if k = name then some v else varsFind r name

/-- `vars[var] = value`: overwrite in place, or append a new binding. -/
def varsSet : List (String × Term) → String → Term → List (String × Term)
  | [], k, v => [(k, v)]
  | (k', v') :: r, k, v =>
    if k' = k then (k, v) :: r else (k', v') :: varsSet r k v

/-- `Environment::find`: this frame, then the outer chain.  The fuel
`e + 1` supplied by `lookup` covers every chain the interpreter builds
(outer indices strictly decrease). -/
def lookupAux : Nat → Store → Nat → String → Option Term
  | 0, _, _, _ => none
  | fuel + 1, s, e, name =>
    match s.frames.get? e with
    | none => none
    | some fr =>
      match varsFind fr.vars name with
      | some v => some v
      | none =>
        match fr.outer with
        | some o => lookupAux fuel s o name
        | none => none

def lookup (s : Store) (e : Nat) (name : String) : Option Term :=
  lookupAux (e + 1) s e name

/-- `Environment::set` on frame `e`: writes into exactly that frame. -/
def storeSet (s : Store) (e : Nat) (name : String) (v : Term) : Store :=
  match s.frames.get? e with
  | some fr => ⟨s.frames.set e ⟨varsSet fr.vars name v, fr.outer⟩⟩
  | none => s

/-- Allocate a new `Environment` frame; its index is the old store
length. -/
def pushFrame (s : Store) (vars : List (String × Term)) (outer : Option Nat) : Store :=
  ⟨s.frames ++ [⟨vars, outer⟩]⟩

/-- Parameter binding of a closure call: `localEnv->set(params[i], args[i])`
for each `i` in order, starting from an empty frame. -/
def bindAll (ps : List String) (vs : List Term) : List (String × Term) :=
  (ps.zip vs).foldl (fun m pv => varsSet m pv.1 pv.2) []

/-! ## Built-ins -/

/-- The argument loop of the `+` builtin: left-to-right sum, failing at
the first non-number argument. -/
def sumArgs : Rat → List Term → Except Err Rat
  | acc, [] => .ok acc
  | acc, .num x :: rest => sumArgs (acc + x) rest
  | _, _ => .error .plusTypeError

/-- The argument loop of the `-` builtin (from the second argument on). -/
def subArgs : Rat → List Term → Except Err Rat
  | acc, [] => .ok acc
  | acc, .num x :: rest => subArgs (acc - x) rest
  | _, _ => .error .minusTypeError

/-- The two native procedures `addBuiltins` registers, as functions
from the evaluated argument list to a term or an error. -/
def runNative : NativeFn → List Term → Except Err Term
  | .add, args => (sumArgs 0 args).map Term.num
  | .sub, [] => .error .minusNeedsArg
  | .sub, .num x :: rest =>
    if rest.isEmpty then .ok (.num (-x)) else (subArgs x rest).map Term.num
  | .sub, _ :: _ => .error .minusTypeError

/-! ## Evaluator -/

/-- Result of one evaluation: a value, a thrown error, or fuel
exhaustion. -/
inductive Res where
  | ok (t : Term)
  | err (e : Err)
  | spin

/-- Result of evaluating an argument list. -/
inductive ResL where
  | okL (vs : List Term)
  | errL (e : Err)
  | spinL

def exceptToRes : Except Err Term → Res
  | .ok t => .ok t
  | .error e => .err e

/-- The lambda-parameter collection loop: every member of the parameter
list must be a symbol. -/
def collectParams : List Term → Option (List String)
  | [] => some []
  | .sym p :: rest => (collectParams rest).map (p :: ·)
  | _ :: _ => none

/-- The argument-evaluation loop of a function application, abstracted
over the single-term evaluator so that `eval` below is structurally
recursive on its fuel: evaluate each element left to right, stopping at
the first error, threading the store. -/
def evalArgsWith (ev : Term → Store → Res × Store) : List Term → Store → ResL × Store
  | [], s => (.okL [], s)
  | t :: ts, s =>
    match ev t s with
    | (.ok v, s1) =>
      match evalArgsWith ev ts s1 with
      | (.okL vs, s2) => (.okL (v :: vs), s2)
      | r => r
    | (.err er, s1) => (.errL er, s1)
    | (.spin, s1) => (.spinL, s1)

/-- `eval(expr, env)`, fuel-indexed.  The store is threaded through and
returned in every case, including errors, because a thrown C++
exception leaves all prior `Environment::set` mutations in place. -/
def eval : Nat → Term → Nat → Store → Res × Store
  | 0, _, _, s => (.spin, s)
  | fuel + 1, t, e, s =>
    match t with
    | .sym name =>
      match lookup s e name with
      | some v => (.ok v, s)
      | none => (.err (.undefinedSymbol name), s)
    | .num _ => (.ok t, s)
    | .list ts =>
      match ts with
      | [] => (.ok (.list []), s)
      | first :: rest =>
        match first with
        | .sym symName =>
          if symName = "define" then
            match rest with
            | [.sym varName, valExpr] =>
              match eval fuel valExpr e s with
              | (.ok v, s1) => (.ok v, storeSet s1 e varName v)
              | r => r
            | _ => (.err .invalidDefine, s)
          else if symName = "lambda" then
            match rest with
            | [.list params, body] =>
              match collectParams params with
              | some names => (.ok (.closure names body e), s)
              | none => (.err .lambdaParamNotSymbol, s)
            | _ => (.err .invalidLambda, s)
          else if symName = "if" then
            match rest with
            | [c, th, el] =>
              match eval fuel c e s with
              | (.ok cv, s1) =>
                match cv with
                | .num x => if x ≠ 0 then eval fuel th e s1 else eval fuel el e s1
                | _ => eval fuel el e s1
              | r => r
            | _ => (.err .invalidIf, s)
          else
            match eval fuel (.sym symName) e s with
            | (.ok fv, s1) =>
              match fv with
              | .natv nf =>
                match evalArgsWith (fun t' s' => eval fuel t' e s') rest s1 with
                | (.okL vs, s2) => (exceptToRes (runNative nf vs), s2)
                | (.errL er, s2) => (.err er, s2)
                | (.spinL, s2) => (.spin, s2)
              | .closure ps body ce =>
                match evalArgsWith (fun t' s' => eval fuel t' e s') rest s1 with
                | (.okL vs, s2) =>
                  if vs.length = ps.length then
                    eval fuel body s2.frames.length (pushFrame s2 (bindAll ps vs) (some ce))
                  else (.err .wrongArgCount, s2)
                | (.errL er, s2) => (.err er, s2)
                | (.spinL, s2) => (.spin, s2)
              | _ => (.err .notAFunction, s1)
            | r => r
        | _ => (.err .firstNotSymbol, s)
    | .natv _ => (.err .invalidExpression, s)
    | .closure _ _ _ => (.err .invalidExpression, s)

/-- The argument-evaluation loop at a given fuel (each argument is a
full recursive `eval` call in the C++). -/
def evalArgs (fuel : Nat) (ts : List Term) (e : Nat) (s : Store) : ResL × Store :=
  evalArgsWith (fun t' s' => eval fuel t' e s') ts s

/-! ## Pipeline (one read-eval cycle of `main`) -/

/-- Evaluation depth budget for concrete runs; far more than any
program in the spec's examples needs. -/
def evalCap : Nat := 100

/-- The global environment after `addBuiltins` (a single frame binding
`+` and `-` to the native procedures, no outer). -/
def initialStore : Store :=
  ⟨[⟨varsSet (varsSet [] "+" (.natv .add)) "-" (.natv .sub), none⟩]⟩

/-- One read-eval cycle: parse the line, evaluate the term in frame 0
of the given store; parse errors leave the store untouched. -/
def runLine (st : Store) (line : String) : Res × Store :=
  match parse line with
  | .ok t => eval evalCap t 0 st
  | .error e => (.err e, st)

/-- A one-frame store binding `n` to the number 7, for the
`application_dispatch` witness. -/
def numBoundStore : Store :=
  ⟨[⟨[("n", .num 7)], none⟩]⟩

/-- A one-frame store binding `f` to the identity closure, for the
`closure_application` witness. -/
def oneParamStore : Store :=
  ⟨[⟨[("f", .closure ["x"] (.sym "x") 0)], none⟩]⟩

/-- True unless the list starts with the symbol `define` (the only
head shape whose evaluation writes into the current frame). -/
def headNotDefine : List Term → Bool
  | .sym "define" :: _ => false
  | _ => true

mutual

/-- No `define` form occurs anywhere in the term.  A closure literal
counts as define-free regardless of its body: evaluating a bare
closure term is the "Invalid expression" error, so such a body never
runs from the term itself. -/
def defineFree : Term → Bool
  | .num _ => true
  | .sym _ => true
  | .natv _ => true
  | .closure _ _ _ => true
  | .list ts => headNotDefine ts && defineFreeList ts

/-- `defineFree` on every element. -/
def defineFreeList : List Term → Bool
  | [] => true
  | t :: ts => defineFree t && defineFreeList ts

end

/-- Frames below `n` survive from `s` to `s'` untouched (and `s'`
still has at least `n` frames). -/
def framesPres (s s' : Store) (n : Nat) : Prop :=
  n ≤ s'.frames.length ∧ ∀ j, j < n → s'.frames.get? j = s.frames.get? j

/-! ## Helper lemmas -/

/-- After `vars[k] = v`, finding `k` yields `v`. -/
theorem varsFind_varsSet (l : List (String × Term)) (k : String) (v : Term) :
    varsFind (varsSet l k v) k = some v := by
  induction l with
  | nil => simp [varsSet, varsFind]
  | cons p r ih =>
    by_cases h : p.1 = k
    · simp [varsSet, h, varsFind]
    · simp [varsSet, h, varsFind, ih]

theorem framesPres_refl {s : Store} {n : Nat} (h : n ≤ s.frames.length) :
    framesPres s s n :=
  ⟨h, fun _ _ => rfl⟩

theorem framesPres_trans {s s1 s2 : Store} {n : Nat}
    (h1 : framesPres s s1 n) (h2 : framesPres s1 s2 n) : framesPres s s2 n :=
  ⟨h2.1, fun j hj => (h2.2 j hj).trans (h1.2 j hj)⟩

/-- Writing into frame `e ≥ n` preserves all frames below `n`. -/
theorem framesPres_storeSet {s : Store} {n e : Nat} (x : String) (v : Term)
    (hn : n ≤ s.frames.length) (he : n ≤ e) :
    framesPres s (storeSet s e x v) n := by
  unfold storeSet
  cases hfr : s.frames.get? e with
  | none => exact framesPres_refl hn
  | some fr =>
    refine ⟨by simpa using hn, fun j hj => ?_⟩
    show (s.frames.set e _).get? j = s.frames.get? j
    rw [List.get?_eq_getElem?, List.get?_eq_getElem?]
    exact List.getElem?_set_ne (by omega)

/-- Appending a fresh frame preserves all frames below `n`. -/
theorem framesPres_push {s : Store} {n : Nat} (vars : List (String × Term))
    (outer : Option Nat) (hn : n ≤ s.frames.length) :
    framesPres s (pushFrame s vars outer) n := by
  refine ⟨by simp [pushFrame]; omega, fun j hj => ?_⟩
  show (s.frames ++ [_]).get? j = s.frames.get? j
  rw [List.get?_eq_getElem?, List.get?_eq_getElem?]
  exact List.getElem?_append_left (by omega)

/-- Elements of a define-free list are define-free. -/
theorem defineFreeList_mem {ts : List Term} (h : defineFreeList ts = true) :
    ∀ t ∈ ts, defineFree t = true := by
  induction ts with
  | nil => intro t ht; simp at ht
  | cons u us ih =>
    intro t ht
    rw [defineFreeList, Bool.and_eq_true] at h
    rcases List.mem_cons.mp ht with rfl | ht
    · exact h.1
    · exact ih h.2 t ht

/-- The argument loop preserves frames below `n` whenever the
single-term evaluator does so on every argument. -/
theorem evalArgsWith_pres (ev : Term → Store → Res × Store) (n : Nat)
    (C : Term → Prop)
    (hev : ∀ t s', C t → n ≤ s'.frames.length → framesPres s' (ev t s').2 n) :
    ∀ ts s', (∀ t ∈ ts, C t) → n ≤ s'.frames.length →
      framesPres s' (evalArgsWith ev ts s').2 n := by
  intro ts
  induction ts with
  | nil => intro s' _ h; exact framesPres_refl h
  | cons t ts ih =>
    intro s' hC h
    have h1 := hev t s' (hC t (by simp)) h
    simp only [evalArgsWith]
    cases hv : ev t s' with
    | mk r s1 =>
      rw [hv] at h1
      cases r with
      | ok v =>
        have h2 := ih s1 (fun u hu => hC u (by simp [hu])) h1.1
        refine framesPres_trans h1 ?_
        dsimp only
        cases hv2 : evalArgsWith ev ts s1 with
        | mk r2 s2 =>
          rw [hv2] at h2
          cases r2 with
          | okL vs => exact h2
          | errL er => exact h2
          | spinL => exact h2
      | err er => exact h1
      | spin => exact h1

/-- `+`'s loop on an all-numbers list computes `acc` plus the sum. -/
theorem sumArgs_map (qs : List Rat) : ∀ acc : Rat,
    sumArgs acc (qs.map Term.num) = .ok (acc + qs.sum) := by
  induction qs with
  | nil => intro acc; simp [sumArgs]
  | cons x rest ih =>
    intro acc
    simp only [List.map_cons, sumArgs, ih, List.sum_cons]
    rw [add_assoc]

/-- `+`'s loop fails with the type error as soon as any argument is not
a number. -/
theorem sumArgs_err (args : List Term) : ∀ acc : Rat,
    (∃ t ∈ args, isNumber t = false) → sumArgs acc args = .error .plusTypeError := by
  induction args with
  | nil => rintro acc ⟨t, ht, -⟩; simp at ht
  | cons a rest ih =>
    rintro acc ⟨t, ht, hnum⟩
    cases a with
    | num x =>
      rcases List.mem_cons.mp ht with h | h
      · subst h; simp [isNumber] at hnum
      · exact (by simpa [sumArgs] using ih (acc + x) ⟨t, h, hnum⟩)
    | sym n => simp [sumArgs]
    | list l => simp [sumArgs]
    | natv f => simp [sumArgs]
    | closure p b e => simp [sumArgs]

/-- `-`'s loop on an all-numbers list subtracts the sum. -/
theorem subArgs_map (qs : List Rat) : ∀ acc : Rat,
    subArgs acc (qs.map Term.num) = .ok (acc - qs.sum) := by
  induction qs with
  | nil => intro acc; simp [subArgs]
  | cons x rest ih =>
    intro acc
    simp only [List.map_cons, subArgs, ih, List.sum_cons]
    rw [sub_sub]

/-- `-`'s loop fails with the type error as soon as any argument is not
a number. -/
theorem subArgs_err (args : List Term) : ∀ acc : Rat,
    (∃ t ∈ args, isNumber t = false) → subArgs acc args = .error .minusTypeError := by
  induction args with
  | nil => rintro acc ⟨t, ht, -⟩; simp at ht
  | cons a rest ih =>
    rintro acc ⟨t, ht, hnum⟩
    cases a with
    | num x =>
      rcases List.mem_cons.mp ht with h | h
      · subst h; simp [isNumber] at hnum
      · exact (by simpa [subArgs] using ih (acc - x) ⟨t, h, hnum⟩)
    | sym n => simp [subArgs]
    | list l => simp [subArgs]
    | natv f => simp [subArgs]
    | closure p b e => simp [subArgs]

/-- One unfolding step of `eval` on an application form whose head
symbol is none of the three special forms: evaluate the head, then
dispatch on whether it is a native, a closure, or not a procedure at
all. -/
theorem eval_sym_list_step (fuel : Nat) (f : String) (rest : List Term) (e : Nat)
    (s : Store) (hd : f ≠ "define") (hl : f ≠ "lambda") (hi : f ≠ "if") :
    eval (fuel + 1) (.list (.sym f :: rest)) e s =
      match eval fuel (.sym f) e s with
      | (.ok fv, s1) =>
        match fv with
        | .natv nf =>
          match evalArgs fuel rest e s1 with
          | (.okL vs, s2) => (exceptToRes (runNative nf vs), s2)
          | (.errL er, s2) => (.err er, s2)
          | (.spinL, s2) => (.spin, s2)
        | .closure ps body ce =>
          match evalArgs fuel rest e s1 with
          | (.okL vs, s2) =>
            if vs.length = ps.length then
              eval fuel body s2.frames.length (pushFrame s2 (bindAll ps vs) (some ce))
            else (.err .wrongArgCount, s2)
          | (.errL er, s2) => (.err er, s2)
          | (.spinL, s2) => (.spin, s2)
        | _ => (.err .notAFunction, s1)
      | r => r := by
  show (if f = "define" then _ else if f = "lambda" then _ else if f = "if" then _ else _) = _
  rw [if_neg hd, if_neg hl, if_neg hi]
  rfl

/-! ## Claim theorems -/

/-- Claim C2: the claim asserts that `tokenize` terminates on every
input line and lexes a leading `-` followed by a digit as one Number
token.  The code refutes this: on the input `-5` the number branch is
taken (its guard recognises `-` followed by a digit) but the consuming
scan accepts only digits and dots, so the cursor never advances past the
`-`; the loop runs forever, appending an empty NUMBER token each
iteration.  Formally, the loop body exhausts every fuel from position 0
of `-5`, regardless of the accumulated tokens. -/
theorem tokenize_diverges_on_negative_literal :
    (∀ fuel acc, tokenizeAux ['-', '5'] fuel 0 acc = .outOfFuel) ∧
    tokenize "-5" = .outOfFuel := by
  have key : ∀ fuel acc, tokenizeAux ['-', '5'] fuel 0 acc = .outOfFuel := by
    intro fuel
    induction fuel with
    | zero => intro acc; rfl
    | succ n ih =>
      intro acc
      show tokenizeAux ['-', '5'] n 0 (acc ++ [⟨.number, ""⟩]) = .outOfFuel
      exact ih _
  exact ⟨key, key 3 []⟩

/-- Claim C10: `parseExpression` reads `tokens[pos]` with no bounds
check; on the empty token sequence (an empty or all-whitespace line)
the total embedding maps that out-of-bounds read to a failure, so
`parse` returns an error and never a term. -/
theorem empty_token_stream_parse_fails :
    (∀ code, tokenize code = .ok [] → parse code = .error .tokenOutOfBounds) ∧
    parse "" = .error .tokenOutOfBounds ∧
    parse "   " = .error .tokenOutOfBounds := by
  refine ⟨fun code h => ?_, rfl, rfl⟩
  simp [parse, h, parseExprAux]

/-- Witness for `empty_token_stream_parse_fails`, at the concrete
one-space line. -/
theorem empty_token_stream_parse_fails_witness :
    parse " " = .error .tokenOutOfBounds :=
  empty_token_stream_parse_fails.1 " " rfl

/-- Claim C9, counterexample: the claim says a Number token whose text
is not a valid float literal (such as `1.2.3`) makes the conversion
fail; instead `std::stod` converts the longest valid prefix, so parsing
the line `1.2.3` succeeds with the value 1.2 = 6/5. -/
theorem malformed_number_token_not_rejected :
    parse "1.2.3" = Except.ok (Term.num (6 / 5 : Rat)) := rfl

/-- Claim C9, amended: the numeric-literal conversion does not reject
every malformed float text — it converts the longest valid prefix of
the token text, so `1.2.3` is silently coerced to 1.2.  The conversion
does still fail in `std::stod`'s two exception cases: when no initial
portion of the text is a valid number (`invalid_argument`, e.g. the
empty text), and when the converted prefix overflows the double range
(`out_of_range`, e.g. a 310-digit integer token, which this lexer can
produce). -/
theorem number_token_conversion :
    (∀ fuel txt rest q, stodModel txt = .ok q →
       parseExprAux (fuel + 1) (⟨.number, txt⟩ :: rest) 0 = .ok (.num q) 1) ∧
    (∀ fuel txt rest, stodModel txt = .error .invalidArgument →
       parseExprAux (fuel + 1) (⟨.number, txt⟩ :: rest) 0 = .err .numberFormat) ∧
    (∀ fuel txt rest, stodModel txt = .error .outOfRange →
       parseExprAux (fuel + 1) (⟨.number, txt⟩ :: rest) 0 = .err .numberOutOfRange) ∧
    stodModel "1.2.3" = .ok (6 / 5 : Rat) ∧
    stodModel "" = .error .invalidArgument ∧
    stodModel (String.mk (List.replicate 310 '1')) = .error .outOfRange ∧
    parse (String.mk (List.replicate 310 '1')) = .error .numberOutOfRange := by
  refine ⟨fun fuel txt rest q h => ?_, fun fuel txt rest h => ?_,
    fun fuel txt rest h => ?_, rfl, rfl, rfl, rfl⟩
  · show (match stodModel txt with
          | .ok q => PRes.ok (.num q) 1
          | .error .invalidArgument => PRes.err .numberFormat
          | .error .outOfRange => PRes.err .numberOutOfRange) = .ok (.num q) 1
    rw [h]
  · show (match stodModel txt with
          | .ok q => PRes.ok (.num q) 1
          | .error .invalidArgument => PRes.err .numberFormat
          | .error .outOfRange => PRes.err .numberOutOfRange) = .err .numberFormat
    rw [h]
  · show (match stodModel txt with
          | .ok q => PRes.ok (.num q) 1
          | .error .invalidArgument => PRes.err .numberFormat
          | .error .outOfRange => PRes.err .numberOutOfRange) = .err .numberOutOfRange
    rw [h]

/-- Witness for `number_token_conversion`: the token text `1.2.3`
coerces to 6/5, and a 310-digit token is rejected as out of range. -/
theorem number_token_conversion_witness :
    parseExprAux 1 [⟨.number, "1.2.3"⟩] 0 = .ok (.num (6 / 5 : Rat)) 1 ∧
    parseExprAux 1 [⟨.number, String.mk (List.replicate 310 '1')⟩] 0
      = .err .numberOutOfRange :=
  ⟨number_token_conversion.1 0 "1.2.3" [] (6 / 5 : Rat) rfl,
   number_token_conversion.2.2.1 0 (String.mk (List.replicate 310 '1')) [] rfl⟩

/-- Claim C5: lexical scoping through captured environments.  The
nested-capture program evaluates to 8, and the shadowing program shows
a free variable resolving through the frame chain captured at
definition time (global `x = 1`), not through the caller's frame
(where `x` is rebound to 99). -/
theorem lexical_scoping_programs :
    (let st1 := (runLine initialStore
        "(define make-adder (lambda (x) (lambda (y) (+ x y))))").2
     let st2 := (runLine st1 "(define add5 (make-adder 5))").2
     (runLine st2 "(add5 3)").1) = Res.ok (.num 8) ∧
    (let u1 := (runLine initialStore "(define x 1)").2
     let u2 := (runLine u1 "(define f (lambda (n) x))").2
     let u3 := (runLine u2 "(define g (lambda (x) (f 0)))").2
     (runLine u3 "(g 99)").1) = Res.ok (.num 1) :=
  ⟨rfl, rfl⟩

/-- Claim C4: `if` truthiness.  For a 4-element `if` form the condition
is evaluated first; a numeric non-zero condition selects the
consequent, a numeric zero or any non-Number value selects the
alternative; concretely `(if 0 1 2)` gives 2 and `(if 1 1 2)`,
`(if -1 1 2)` give 1. -/
theorem if_truthiness :
    (∀ fuel c th el e s x s1, eval fuel c e s = (.ok (.num x), s1) → x ≠ 0 →
       eval (fuel + 1) (.list [.sym "if", c, th, el]) e s = eval fuel th e s1) ∧
    (∀ fuel c th el e s s1, eval fuel c e s = (.ok (.num 0), s1) →
       eval (fuel + 1) (.list [.sym "if", c, th, el]) e s = eval fuel el e s1) ∧
    (∀ fuel c th el e s cv s1, eval fuel c e s = (.ok cv, s1) → isNumber cv = false →
       eval (fuel + 1) (.list [.sym "if", c, th, el]) e s = eval fuel el e s1) ∧
    eval evalCap (.list [.sym "if", .num 0, .num 1, .num 2]) 0 initialStore
      = (.ok (.num 2), initialStore) ∧
    eval evalCap (.list [.sym "if", .num 1, .num 1, .num 2]) 0 initialStore
      = (.ok (.num 1), initialStore) ∧
    eval evalCap (.list [.sym "if", .num (-1), .num 1, .num 2]) 0 initialStore
      = (.ok (.num 1), initialStore) := by
  refine ⟨?_, ?_, ?_, rfl, rfl, rfl⟩
  · intro fuel c th el e s x s1 hc hx
    show (match eval fuel c e s with
          | (.ok cv, s1) =>
            match cv with
            | .num x => if x ≠ 0 then eval fuel th e s1 else eval fuel el e s1
            | _ => eval fuel el e s1
          | r => r) = eval fuel th e s1
    rw [hc]
    simp [hx]
  · intro fuel c th el e s s1 hc
    show (match eval fuel c e s with
          | (.ok cv, s1) =>
            match cv with
            | .num x => if x ≠ 0 then eval fuel th e s1 else eval fuel el e s1
            | _ => eval fuel el e s1
          | r => r) = eval fuel el e s1
    rw [hc]
    simp
  · intro fuel c th el e s cv s1 hc hcv
    show (match eval fuel c e s with
          | (.ok cv, s1) =>
            match cv with
            | .num x => if x ≠ 0 then eval fuel th e s1 else eval fuel el e s1
            | _ => eval fuel el e s1
          | r => r) = eval fuel el e s1
    rw [hc]
    cases cv <;> simp_all [isNumber]

/-- Witness for `if_truthiness`: the non-zero case at condition 3. -/
theorem if_truthiness_witness :
    eval 2 (.list [.sym "if", .num 3, .num 7, .num 9]) 0 initialStore
      = eval 1 (.num 7) 0 initialStore :=
  if_truthiness.1 1 (.num 3) (.num 7) (.num 9) 0 initialStore 3 initialStore rfl
    (by norm_num)

/-- Claim C7: a well-formed `define` evaluates its third element in the
current environment, writes the value into the current frame (frame `e`
only — every other frame is untouched), and the form itself evaluates
to that value; a malformed shape (element count other than 3, or a
non-Symbol name) is the define syntax error; afterwards lookup of the
name in the defining frame yields the bound value.  Concretely
`(define y (+ 2 3))` evaluates to 5 and a subsequent lookup of `y`
yields 5. -/
theorem define_semantics :
    (∀ fuel x ex e s v s1, eval fuel ex e s = (.ok v, s1) →
       eval (fuel + 1) (.list [.sym "define", .sym x, ex]) e s
         = (.ok v, storeSet s1 e x v)) ∧
    (∀ fuel rest e s, (∀ x ex, rest ≠ [Term.sym x, ex]) →
       eval (fuel + 1) (.list (.sym "define" :: rest)) e s = (.err .invalidDefine, s)) ∧
    (∀ s e x v fr, s.frames.get? e = some fr → lookup (storeSet s e x v) e x = some v) ∧
    (∀ s e x v j, j ≠ e → (storeSet s e x v).frames.get? j = s.frames.get? j) ∧
    (runLine initialStore "(define y (+ 2 3))").1 = .ok (.num 5) ∧
    lookup (runLine initialStore "(define y (+ 2 3))").2 0 "y" = some (.num 5) := by
  refine ⟨?_, ?_, ?_, ?_, rfl, rfl⟩
  · intro fuel x ex e s v s1 h
    show (match eval fuel ex e s with
          | (.ok v, s1) => (Res.ok v, storeSet s1 e x v)
          | r => r) = (.ok v, storeSet s1 e x v)
    rw [h]
  · intro fuel rest e s h
    rcases rest with _ | ⟨a, _ | ⟨b, _ | ⟨c, rest'⟩⟩⟩
    · rfl
    · cases a <;> rfl
    · cases a with
      | sym x => exact absurd rfl (h x b)
      | num q => rfl
      | list l => rfl
      | natv f => rfl
      | closure p bd ev => rfl
    · cases a <;> rfl
  · intro s e x v fr hfr
    have he : e < s.frames.length := by
      by_contra hle
      rw [List.get?_eq_none.mpr (Nat.le_of_not_lt hle)] at hfr
      exact Option.noConfusion hfr
    simp only [storeSet, hfr, lookup, lookupAux, List.get?_eq_getElem?,
      List.getElem?_set_eq_of_lt _ he, varsFind_varsSet]
  · intro s e x v j hj
    unfold storeSet
    cases hfr : s.frames.get? e with
    | none => rfl
    | some fr =>
      show (⟨s.frames.set e _⟩ : Store).frames.get? j = s.frames.get? j
      rw [List.get?_eq_getElem?, List.get?_eq_getElem?]
      exact List.getElem?_set_ne fun h => hj h.symm

/-- Witness for `define_semantics`: defining `z` as the literal 4 in
the initial store. -/
theorem define_semantics_witness :
    eval 2 (.list [.sym "define", .sym "z", .num 4]) 0 initialStore
      = (.ok (.num 4), storeSet initialStore 0 "z" (.num 4)) :=
  define_semantics.1 1 "z" (.num 4) 0 initialStore (.num 4) initialStore rfl

/-- Claim C8: the native `+` sums any list of numbers (0 for the empty
list) and raises the type error when some argument is not a number;
the native `-` rejects the empty argument list, negates a single
number, subtracts all subsequent numbers from the first left to right,
and raises the type error when some argument is not a number.
Concretely `(+ 1 2 3)` gives 6, `(- 10 1 2)` gives 7, `(- 5)` gives
-5, `(+)` gives 0. -/
theorem builtin_arithmetic :
    (∀ qs : List Rat, runNative .add (qs.map Term.num) = .ok (.num qs.sum)) ∧
    (∀ args, (∃ t ∈ args, isNumber t = false) →
       runNative .add args = .error .plusTypeError) ∧
    runNative .sub [] = .error .minusNeedsArg ∧
    (∀ x : Rat, runNative .sub [.num x] = .ok (.num (-x))) ∧
    (∀ (x : Rat) (qs : List Rat), qs ≠ [] →
       runNative .sub (.num x :: qs.map Term.num) = .ok (.num (x - qs.sum))) ∧
    (∀ args, (∃ t ∈ args, isNumber t = false) →
       runNative .sub args = .error .minusTypeError) ∧
    (runLine initialStore "(+ 1 2 3)").1 = .ok (.num 6) ∧
    (runLine initialStore "(- 10 1 2)").1 = .ok (.num 7) ∧
    (runLine initialStore "(- 5)").1 = .ok (.num (-5)) ∧
    (runLine initialStore "(+)").1 = .ok (.num 0) := by
  refine ⟨?_, ?_, rfl, ?_, ?_, ?_, rfl, rfl, rfl, rfl⟩
  · intro qs
    simp [runNative, sumArgs_map, Except.map]
  · intro args h
    simp [runNative, sumArgs_err args 0 h, Except.map]
  · intro x
    simp [runNative]
  · intro x qs h
    rcases qs with _ | ⟨q, rest⟩
    · exact absurd rfl h
    · have hs := subArgs_map (q :: rest) x
      simp only [List.map_cons] at hs
      simp [runNative, hs, Except.map, sub_sub]
  · rintro args ⟨t, ht, hnum⟩
    rcases args with _ | ⟨a, rest⟩
    · simp at ht
    · cases a with
      | num x =>
        rcases List.mem_cons.mp ht with h | h
        · subst h; simp [isNumber] at hnum
        · have hrest : rest ≠ [] := by rintro rfl; simp at h
          simp [runNative, List.isEmpty_iff.not.mpr hrest,
            subArgs_err rest x ⟨t, h, hnum⟩, Except.map]
      | sym n => rfl
      | list l => rfl
      | natv f => rfl
      | closure p b e => rfl

/-- Witness for `builtin_arithmetic`: a non-number argument to `+`, and
`-` on 10, 1, 2. -/
theorem builtin_arithmetic_witness :
    runNative .add [.num 1, .sym "a"] = .error .plusTypeError ∧
    runNative .sub (Term.num 10 :: ([1, 2] : List Rat).map Term.num)
      = .ok (.num (10 - ([1, 2] : List Rat).sum)) :=
  ⟨builtin_arithmetic.2.1 [.num 1, .sym "a"] ⟨.sym "a", by simp, rfl⟩,
   builtin_arithmetic.2.2.2.2.1 10 [1, 2] (by simp)⟩

/-- Claim C1, counterexample: the claim says that for a non-empty list
whose first element is not `define`/`lambda`/`if` — including a list
or number head — the first element is evaluated, failing with the
not-a-procedure error only when the result is not a procedure.  In the
code, a non-Symbol head is rejected outright with the distinct error
"First element must be a symbol", without being evaluated: `(1 2)`
fails that way, and `((lambda (x) x) 5)` fails the same way even
though its head would evaluate to a procedure and the claim would have
it proceed as an application yielding 5. -/
theorem nonsymbol_head_counterexample :
    eval 5 (.list [.num 1, .num 2]) 0 initialStore
      = (.err .firstNotSymbol, initialStore) ∧
    eval evalCap
        (.list [.list [.sym "lambda", .list [.sym "x"], .sym "x"], .num 5]) 0 initialStore
      = (.err .firstNotSymbol, initialStore) ∧
    Err.firstNotSymbol ≠ Err.notAFunction :=
  ⟨rfl, rfl, by decide⟩

/-- Claim C1, amended: for a non-empty list whose first element is a
*Symbol* other than `define`/`lambda`/`if`, evaluation evaluates that
symbol in the current environment and fails with the not-a-procedure
error exactly when the result is not a procedure; when the result is a
procedure it proceeds as an application (natives run on the evaluated
arguments, closures are arity-checked and applied).  A list whose
first element is not a Symbol is instead rejected with the "first
element must be a symbol" error, without evaluating the head. -/
theorem application_dispatch (fuel : Nat) (f : String) (rest : List Term) (e : Nat)
    (s : Store) (v : Term) (s1 : Store)
    (hd : f ≠ "define") (hl : f ≠ "lambda") (hi : f ≠ "if")
    (hhead : eval (fuel + 1) (.sym f) e s = (.ok v, s1)) :
    (isFunction v = false →
       eval (fuel + 2) (.list (.sym f :: rest)) e s = (.err .notAFunction, s1)) ∧
    (∀ nf, v = .natv nf → ∀ vs s2, evalArgs (fuel + 1) rest e s1 = (.okL vs, s2) →
       eval (fuel + 2) (.list (.sym f :: rest)) e s = (exceptToRes (runNative nf vs), s2)) ∧
    (∀ ps body ce, v = .closure ps body ce →
       ∀ vs s2, evalArgs (fuel + 1) rest e s1 = (.okL vs, s2) →
       eval (fuel + 2) (.list (.sym f :: rest)) e s =
         (if vs.length = ps.length then
            eval (fuel + 1) body s2.frames.length (pushFrame s2 (bindAll ps vs) (some ce))
          else (.err .wrongArgCount, s2))) := by
  have hstep := eval_sym_list_step (fuel + 1) f rest e s hd hl hi
  rw [hhead] at hstep
  refine ⟨?_, ?_, ?_⟩
  · intro hv
    cases v with
    | natv nf => simp [isFunction] at hv
    | closure p b c => simp [isFunction] at hv
    | num q => exact hstep
    | sym n => exact hstep
    | list l => exact hstep
  · rintro nf rfl vs s2 hargs
    dsimp only at hstep
    rw [hargs] at hstep
    exact hstep
  · rintro ps body ce rfl vs s2 hargs
    dsimp only at hstep
    rw [hargs] at hstep
    exact hstep

/-- Witness for `application_dispatch`: applying the number bound to
`n` fails with the not-a-procedure error. -/
theorem application_dispatch_witness :
    eval 3 (.list [.sym "n", .num 1]) 0 numBoundStore
      = (.err .notAFunction, numBoundStore) :=
  (application_dispatch 1 "n" [.num 1] 0 numBoundStore (.num 7) numBoundStore
    (by decide) (by decide) (by decide) rfl).1 rfl

/-- Claim C6: applying a closure of `k` parameters to `n` evaluated
arguments fails with the arity error when `n ≠ k`, leaving the store
exactly as it was after argument evaluation (no call frame is created,
nothing is partially bound); when `n = k` a single new frame is
appended whose bindings are the parameters zipped with the arguments
and whose outer link is the closure's captured environment, and the
body is evaluated there. -/
theorem closure_application (fuel : Nat) (f : String) (rest : List Term) (e : Nat)
    (s s2 : Store) (ps : List String) (body : Term) (ce : Nat) (vs : List Term)
    (hd : f ≠ "define") (hl : f ≠ "lambda") (hi : f ≠ "if")
    (hlook : lookup s e f = some (.closure ps body ce))
    (hargs : evalArgs (fuel + 1) rest e s = (.okL vs, s2)) :
    (vs.length ≠ ps.length →
       eval (fuel + 2) (.list (.sym f :: rest)) e s = (.err .wrongArgCount, s2)) ∧
    (vs.length = ps.length →
       eval (fuel + 2) (.list (.sym f :: rest)) e s
         = eval (fuel + 1) body s2.frames.length (pushFrame s2 (bindAll ps vs) (some ce))) := by
  have hhead : eval (fuel + 1) (.sym f) e s = (.ok (.closure ps body ce), s) := by
    show (match lookup s e f with
          | some v => (Res.ok v, s)
          | none => (Res.err (.undefinedSymbol f), s)) = _
    rw [hlook]
  have hstep := eval_sym_list_step (fuel + 1) f rest e s hd hl hi
  rw [hhead] at hstep
  dsimp only at hstep
  rw [hargs] at hstep
  constructor
  · intro hne
    rw [hstep]
    show (if vs.length = ps.length then _ else _) = _
    rw [if_neg hne]
  · intro heq
    rw [hstep]
    show (if vs.length = ps.length then _ else _) = _
    rw [if_pos heq]

/-- Witness for `closure_application`: calling the one-parameter
closure with two arguments fails with the arity error and leaves the
store unchanged. -/
theorem closure_application_witness :
    eval 3 (.list [.sym "f", .num 1, .num 2]) 0 oneParamStore
      = (.err .wrongArgCount, oneParamStore) :=
  (closure_application 1 "f" [.num 1, .num 2] 0 oneParamStore oneParamStore
    ["x"] (.sym "x") 0 [.num 1, .num 2]
    (by decide) (by decide) (by decide) rfl rfl).1 (by decide)

/-- Every frame index below `n` survives any evaluation of a
define-free term untouched, and likewise any evaluation whose current
frame index is at least `n`: the only in-place frame write `eval`
performs is the `define` case (which targets the current frame), and
every call frame it creates is appended above all existing frames. -/
theorem evalPres : ∀ fuel t e s n, n ≤ s.frames.length →
    (defineFree t = true ∨ n ≤ e) → framesPres s (eval fuel t e s).2 n := by
  intro fuel
  induction fuel with
  | zero => intro t e s n hn _; exact framesPres_refl hn
  | succ fuel ih =>
    intro t e s n hn hfree
    cases t with
    | num x => exact framesPres_refl hn
    | natv g => exact framesPres_refl hn
    | closure p b c => exact framesPres_refl hn
    | sym name =>
      show framesPres s
        (match lookup s e name with
         | some v => (Res.ok v, s)
         | none => (Res.err (.undefinedSymbol name), s)).2 n
      cases lookup s e name with
      | some v => exact framesPres_refl hn
      | none => exact framesPres_refl hn
    | list ts =>
      cases ts with
      | nil => exact framesPres_refl hn
      | cons first rest =>
        cases first with
        | num q => exact framesPres_refl hn
        | natv g => exact framesPres_refl hn
        | closure p b c => exact framesPres_refl hn
        | list l => exact framesPres_refl hn
        | sym f =>
          by_cases hdef : f = "define"
          · subst hdef
            have he : n ≤ e := by
              rcases hfree with hfree | he
              · simp [defineFree, headNotDefine] at hfree
              · exact he
            rcases rest with _ | ⟨a, _ | ⟨b, _ | ⟨c, rest'⟩⟩⟩
            · exact framesPres_refl hn
            · cases a <;> exact framesPres_refl hn
            · cases a with
              | sym x =>
                show framesPres s
                  (match eval fuel b e s with
                   | (.ok v, s1) => (Res.ok v, storeSet s1 e x v)
                   | r => r).2 n
                cases hv : eval fuel b e s with
                | mk r s1 =>
                  have h1 := ih b e s n hn (Or.inr he)
                  rw [hv] at h1
                  cases r with
                  | ok v => exact framesPres_trans h1 (framesPres_storeSet x v h1.1 he)
                  | err er => exact h1
                  | spin => exact h1
              | num q => exact framesPres_refl hn
              | list l => exact framesPres_refl hn
              | natv g => exact framesPres_refl hn
              | closure p bb cc => exact framesPres_refl hn
            · cases a <;> exact framesPres_refl hn
          · by_cases hlam : f = "lambda"
            · subst hlam
              rcases rest with _ | ⟨a, _ | ⟨b, _ | ⟨c, rest'⟩⟩⟩
              · exact framesPres_refl hn
              · cases a <;> exact framesPres_refl hn
              · cases a with
                | list params =>
                  show framesPres s
                    (match collectParams params with
                     | some names => (Res.ok (.closure names b e), s)
                     | none => (Res.err .lambdaParamNotSymbol, s)).2 n
                  cases collectParams params with
                  | some names => exact framesPres_refl hn
                  | none => exact framesPres_refl hn
                | num q => exact framesPres_refl hn
                | sym nm => exact framesPres_refl hn
                | natv g => exact framesPres_refl hn
                | closure p bb cc => exact framesPres_refl hn
              · cases a <;> exact framesPres_refl hn
            · by_cases hif : f = "if"
              · subst hif
                rcases rest with _ | ⟨a, _ | ⟨b, _ | ⟨c, _ | ⟨d, rest'⟩⟩⟩⟩
                · exact framesPres_refl hn
                · exact framesPres_refl hn
                · exact framesPres_refl hn
                · have hparts :
                      (defineFree a = true ∧ defineFree b = true ∧ defineFree c = true)
                        ∨ n ≤ e := by
                    rcases hfree with hfree | he
                    · left
                      simp only [defineFree, defineFreeList, Bool.and_eq_true] at hfree
                      refine ⟨?_, ?_, ?_⟩ <;> tauto
                    · right; exact he
                  show framesPres s
                    (match eval fuel a e s with
                     | (.ok cv, s1) =>
                       match cv with
                       | .num x => if x ≠ 0 then eval fuel b e s1 else eval fuel c e s1
                       | _ => eval fuel c e s1
                     | r => r).2 n
                  cases hv : eval fuel a e s with
                  | mk r s1 =>
                    have h1 := ih a e s n hn (hparts.imp (fun h => h.1) id)
                    rw [hv] at h1
                    cases r with
                    | err er => exact h1
                    | spin => exact h1
                    | ok cv =>
                      have hb := hparts.imp (fun h => h.2.1) (id : n ≤ e → n ≤ e)
                      have hc := hparts.imp (fun h => h.2.2) (id : n ≤ e → n ≤ e)
                      cases cv with
                      | num x =>
                        by_cases hx : x = 0
                        · show framesPres s
                            (if x ≠ 0 then eval fuel b e s1 else eval fuel c e s1).2 n
                          rw [if_neg (not_not_intro hx)]
                          exact framesPres_trans h1 (ih c e s1 n h1.1 hc)
                        · show framesPres s
                            (if x ≠ 0 then eval fuel b e s1 else eval fuel c e s1).2 n
                          rw [if_pos hx]
                          exact framesPres_trans h1 (ih b e s1 n h1.1 hb)
                      | sym nm => exact framesPres_trans h1 (ih c e s1 n h1.1 hc)
                      | list l => exact framesPres_trans h1 (ih c e s1 n h1.1 hc)
                      | natv g => exact framesPres_trans h1 (ih c e s1 n h1.1 hc)
                      | closure p bb cc => exact framesPres_trans h1 (ih c e s1 n h1.1 hc)
                · exact framesPres_refl hn
              · rw [eval_sym_list_step fuel f rest e s hdef hlam hif]
                have hAll : ∀ u ∈ rest, (defineFree u = true ∨ n ≤ e) := by
                  rcases hfree with hfree | he
                  · intro u hu
                    simp only [defineFree, Bool.and_eq_true] at hfree
                    have hlist := hfree.2
                    rw [defineFreeList, Bool.and_eq_true] at hlist
                    exact Or.inl (defineFreeList_mem hlist.2 u hu)
                  · intro u _; exact Or.inr he
                have hhead := ih (.sym f) e s n hn (Or.inl (by simp [defineFree]))
                cases hv : eval fuel (.sym f) e s with
                | mk r s1 =>
                  rw [hv] at hhead
                  cases r with
                  | err er => exact hhead
                  | spin => exact hhead
                  | ok fv =>
                    have hargs : framesPres s1 (evalArgs fuel rest e s1).2 n :=
                      evalArgsWith_pres (fun t' s' => eval fuel t' e s') n
                        (fun u => defineFree u = true ∨ n ≤ e)
                        (fun u s' hC h => ih u e s' n h hC) rest s1 hAll hhead.1
                    cases fv with
                    | num q => exact hhead
                    | sym nm => exact hhead
                    | list l => exact hhead
                    | natv nf =>
                      dsimp only
                      cases ha : evalArgs fuel rest e s1 with
                      | mk rl s2 =>
                        rw [ha] at hargs
                        cases rl with
                        | okL vs => exact framesPres_trans hhead hargs
                        | errL er => exact framesPres_trans hhead hargs
                        | spinL => exact framesPres_trans hhead hargs
                    | closure ps body ce =>
                      dsimp only
                      cases ha : evalArgs fuel rest e s1 with
                      | mk rl s2 =>
                        rw [ha] at hargs
                        cases rl with
                        | errL er => exact framesPres_trans hhead hargs
                        | spinL => exact framesPres_trans hhead hargs
                        | okL vs =>
                          show framesPres s
                            (if vs.length = ps.length then
                               eval fuel body s2.frames.length
                                 (pushFrame s2 (bindAll ps vs) (some ce))
                             else (Res.err .wrongArgCount, s2)).2 n
                          by_cases hlen : vs.length = ps.length
                          · rw [if_pos hlen]
                            have hpush := framesPres_push (bindAll ps vs) (some ce) hargs.1
                            have hlen2 : n ≤ (pushFrame s2 (bindAll ps vs) (some ce)).frames.length := by
                              have h2 : n ≤ s2.frames.length := hargs.1
                              show n ≤ (s2.frames ++ [_]).length
                              rw [List.length_append]
                              omega
                            have hbody := ih body s2.frames.length
                              (pushFrame s2 (bindAll ps vs) (some ce)) n hlen2 (Or.inr hargs.1)
                            exact framesPres_trans hhead
                              (framesPres_trans hargs (framesPres_trans hpush hbody))
                          · rw [if_neg hlen]
                            exact framesPres_trans hhead hargs

/-- Claim C3, counterexample: the claim says a failing cycle leaves
the environment chain exactly as it was, with no binding added in any
frame.  Evaluating `(+ (define x 5) (foo))` from the initial store
fails with the unbound-symbol error on `foo`, yet the `define`
sub-form that completed before the failure has added `x = 5` to the
global frame, which was unbound before the cycle. -/
theorem failing_cycle_mutation_counterexample :
    (runLine initialStore "(+ (define x 5) (foo))").1
      = .err (.undefinedSymbol "foo") ∧
    lookup (runLine initialStore "(+ (define x 5) (foo))").2 0 "x" = some (.num 5) ∧
    lookup initialStore 0 "x" = none :=
  ⟨rfl, rfl, rfl⟩

/-- Claim C3, amended: a failing cycle can retain bindings written by
`define` sub-forms that completed before the error, so the chain is
not always restored; but for every term that contains no `define`
form, a failing evaluation leaves every pre-existing frame exactly as
it was (new call frames may have been appended above them), so in
particular previously defined globals remain unchanged and queryable. -/
theorem error_cycle_environment_preservation (fuel : Nat) (t : Term) (e : Nat)
    (s : Store) (n : Nat) (er : Err)
    (hn : n ≤ s.frames.length) (hfree : defineFree t = true)
    (_herr : (eval fuel t e s).1 = .err er) :
    n ≤ (eval fuel t e s).2.frames.length ∧
    ∀ j, j < n → (eval fuel t e s).2.frames.get? j = s.frames.get? j :=
  evalPres fuel t e s n hn (Or.inl hfree)

/-- Witness for `error_cycle_environment_preservation`: the failing
cycle `(foo)` from the initial store leaves the global frame as it
was. -/
theorem error_cycle_environment_preservation_witness :
    (eval 5 (.list [.sym "foo"]) 0 initialStore).2.frames.get? 0
      = initialStore.frames.get? 0 :=
  (error_cycle_environment_preservation 5 (.list [.sym "foo"]) 0 initialStore 1
    (.undefinedSymbol "foo") (by decide)
    (by simp [defineFree, defineFreeList, headNotDefine]) rfl).2 0 (by decide)

end Lisp
